import Mathlib

/-!
Verification development for the `filecompiler` repository
(`src/filecompiler/compile.py`), a single-file directory analyzer:
it walks a directory tree with `os.walk`, filters paths by excluded
directory names and extensions, gates files by size and sniffed MIME
type, reads UTF-8 text, and collects per-file records plus per-file
errors into one aggregate result that is serialized to JSON.

Shallow embedding conventions:
* Filesystem paths are represented as lists of path components
  (`List String`); joining with the OS separator is modelled by list
  append, and rendering back to a string uses "/" as separator.
  The root directory argument is taken to be an absolute path already,
  so `os.path.abspath` on it is the identity.
* The filesystem seen by one run is a finite snapshot: an optional list
  of entries for the root (`none` models a root that does not exist or
  is not a directory, for which `os.walk` yields no triples at all),
  where each directory entry is a file (with its stat/sniff/read
  behaviour recorded in a `FileInfo`), a readable subdirectory, a
  symbolic link to a directory (never descended into, since `os.walk`
  defaults to `followlinks=False`), or a directory whose entries cannot
  be enumerated (for which `os.walk` with the default `onerror=None`
  silently produces nothing).
* Python exceptions are modelled with `Except String`, the error
  carrying the exception's message `str(e)`.
* Python `str.lower` is modelled by ASCII `String.toLower`; all strings
  relevant to the claims are ASCII.
-/

deriving instance DecidableEq for Except

/-- The module-level `DEFAULT_EXCLUDE` dictionary: excluded directory
base names and excluded extensions. Sets are modelled as lists with
membership via `contains`. -/
structure ExcludePatterns where
  dirs : List String
  extensions : List String
deriving DecidableEq

/-- `DEFAULT_EXCLUDE = {'dirs': {'dist', '.git', 'venv', 'node_modules',
'__pycache__'}, 'extensions': {'.pyc', '.json'}}`. -/
def DEFAULT_EXCLUDE : ExcludePatterns :=
  { dirs := ["dist", ".git", "venv", "node_modules", "__pycache__"],
    extensions := [".pyc", ".json"] }

/-- ASCII lowercase of one character; models Python `str.lower` on the
ASCII strings the claims involve. -/
def lowerChar (c : Char) : Char :=
  if 'A' ≤ c ∧ c ≤ 'Z' then Char.ofNat (c.toNat + 32) else c

/-- ASCII lowercase of a string (Python `str.lower` on ASCII input). -/
def strLower (s : String) : String :=
  String.mk (s.toList.map lowerChar)

/-- Index of the last `'.'` in a list of characters (Python
`str.rfind('.')`, with `none` for the Python result `-1`). -/
def lastDotIdxAux : List Char → Nat → Option Nat → Option Nat
  | [], _, acc => acc
  | c :: rest, i, acc =>
      lastDotIdxAux rest (i + 1) (if c = '.' then some i else acc)

/-- Python `pathlib.PurePath.suffix` of a base name: the substring from
the last dot onward, provided that dot is neither the first nor the
last character; otherwise the empty string. -/
def pySuffix (name : String) : String :=
  let cs := name.toList
  match lastDotIdxAux cs 0 none with
  | none => ""
  | some i => if 0 < i ∧ i + 1 < cs.length then String.mk (cs.drop i) else ""

/-- The base names of `Path(p).parents` for a path with the given
components: every component except the last, plus the empty name
contributed by the anchor (`.` or `/`), whose `.name` is `""`. -/
def parentNames (comps : List String) : List String :=
  comps.dropLast ++ [""]

/-- `should_skip_path(path, exclude_patterns)`: skip when some parent's
base name is in `exclude_patterns['dirs']`, or when the path's suffix,
lowercased, is in `exclude_patterns['extensions']`. -/
def should_skip_path (comps : List String) (rules : ExcludePatterns) : Bool :=
  (parentNames comps).any (fun n => rules.dirs.contains n) ||
  rules.extensions.contains (strLower (pySuffix (comps.getLastD "")))

/-- Boolean "list starts with" helper. -/
def listStartsWith : List Char → List Char → Bool
  | _, [] => true
  | [], _ :: _ => false
  | c :: cs, p :: ps => c = p && listStartsWith cs ps

/-- Python `str.startswith` over the character sequences. -/
def strStartsWith (s pre : String) : Bool :=
  listStartsWith s.toList pre.toList

/-- The inline MIME-type gate of `analyze_code_files`: text-like iff the
sniffed type starts with `text/` or is exactly one of the three listed
application types. -/
def isTextLike (file_type : String) : Bool :=
  strStartsWith file_type "text/" ||
  file_type == "application/javascript" ||
  file_type == "application/json" ||
  file_type == "application/xml"

/-- The `language_map` table of `detect_language`. -/
def language_map : List (String × String) :=
  [(".py", "Python"), (".js", "JavaScript"), (".jsx", "JavaScript/React"),
   (".java", "Java"), (".html", "HTML"), (".css", "CSS"), (".xml", "XML")]

/-- `detect_language(file_path, content)`: look up the lowercased
extension in `language_map`, defaulting to "Unknown". The content
argument is ignored by the source as well. Only the base name of the
path is relevant because `Path(p).suffix` looks at the last component. -/
def detect_language (file_name : String) (_content : String) : String :=
  let extension := strLower (pySuffix file_name)
  (List.lookup extension language_map).getD "Unknown"

/-- Line-break characters of Python `str.splitlines`: LF, CR, VT, FF,
FS, GS, RS, NEL, LINE SEPARATOR, PARAGRAPH SEPARATOR (with CRLF counted
as a single break by the splitter below). -/
def isPyLineBreak (c : Char) : Bool :=
  c = '\n' || c = '\r' || c.toNat = 11 || c.toNat = 12 ||
  c.toNat = 28 || c.toNat = 29 || c.toNat = 30 || c.toNat = 133 ||
  c.toNat = 8232 || c.toNat = 8233

/-- Number of segments produced by splitting a character list at the
breaks recognised by `isBreak`, treating CRLF as one break and not
counting a trailing empty segment after a final break — the counting
semantics of Python `str.splitlines`. The boolean tracks whether a
segment is currently open. -/
def segCountAux (isBreak : Char → Bool) : List Char → Bool → Nat
  | [], inSeg => if inSeg then 1 else 0
  | [_], _ => 1
  | c₁ :: c₂ :: rest, _ =>
      if c₁ = '\r' ∧ c₂ = '\n' then 1 + segCountAux isBreak rest false
      else if isBreak c₁ then 1 + segCountAux isBreak (c₂ :: rest) false
      else segCountAux isBreak (c₂ :: rest) true

/-- `len(content.splitlines())`. -/
def pySplitlinesCount (s : String) : Nat :=
  segCountAux isPyLineBreak s.toList false

/-- Modelled from the spec: breaks of the claimed "universal
line-splitting" — exactly CR, LF, or CRLF. -/
def isCRLFBreak (c : Char) : Bool :=
  c = '\n' || c = '\r'

/-- Modelled from the spec: the number of newline-delimited segments
under splitting on exactly CR, LF, or CRLF, as claim C7 states it. -/
def crlfSegments (s : String) : Nat :=
  segCountAux isCRLFBreak s.toList false

/-- Environment behaviour of one regular file during the run: the
result of `os.path.getsize` (an exception message on stat failure),
the MIME string returned by `magic.from_file`, the result of opening,
reading and UTF-8-decoding the file (`f.read()`, an exception message
on read or decode failure), and `os.path.getmtime` (modelled
integer-valued). One snapshot serves the whole run, matching a
filesystem that does not change mid-walk. -/
structure FileInfo where
  statResult : Except String Nat
  mime : String
  readResult : Except String String
  mtime : Nat
deriving DecidableEq

/-- One directory entry as seen by `os.walk`: a regular file, a
readable subdirectory, a symbolic link to a directory (listed among
directories but never descended into, since `os.walk` defaults to
`followlinks=False`; its target snapshot is carried only to state
theorems about what the walk ignores), or a directory whose entries
cannot be listed (`os.scandir` raises; with the default `onerror=None`
the walk silently yields nothing for it). -/
inductive FSEntry where
  | file (name : String) (info : FileInfo)
  | dir (name : String) (entries : List FSEntry)
  | symlinkDir (name : String) (target : List FSEntry)
  | unreadableDir (name : String)

/-- Base name of an entry. -/
def entryName : FSEntry → String
  | .file n _ => n
  | .dir n _ => n
  | .symlinkDir n _ => n
  | .unreadableDir n => n

/-- A candidate file yielded by the walk: the directory path relative
to the traversal root (as components), the file's base name, and its
environment behaviour. -/
structure Cand where
  rel : List String
  name : String
  info : FileInfo
deriving DecidableEq

/-- The traversal key of a candidate: its relative directory and name.
Distinct candidates of a well-formed tree have distinct keys. -/
def candKey (c : Cand) : List String × String :=
  (c.rel, c.name)

/-- The `os.walk(directory_path)` traversal order, split per directory:
for the directory at relative path `rel` with the given entries, the
first component lists this directory's own files (in entry order — the
walk processes all files of a directory before descending), and the
second component concatenates the full walks of its readable
subdirectories in entry order. Symlinked directories are not descended
into and unreadable directories contribute nothing. -/
def walkPair (rel : List String) : List FSEntry → List Cand × List Cand
  | [] => ([], [])
  | .file n i :: rest =>
      let p := walkPair rel rest
      (⟨rel, n, i⟩ :: p.1, p.2)
  | .dir n es :: rest =>
      let sub := walkPair (rel ++ [n]) es
      let p := walkPair rel rest
      (p.1, (sub.1 ++ sub.2) ++ p.2)
  | .symlinkDir _ _ :: rest => walkPair rel rest
  | .unreadableDir _ :: rest => walkPair rel rest

/-- All candidate files of a run rooted at the given entry list, in
`os.walk` order. -/
def walkCands (entries : List FSEntry) : List Cand :=
  (walkPair [] entries).1 ++ (walkPair [] entries).2

/-- The per-file `statistics` dictionary. -/
structure Statistics where
  lines : Nat
  characters : Nat
deriving DecidableEq

/-- The per-file `file_data` dictionary appended to
`analysis_data['files']`. `path` is `os.path.relpath(file_path,
directory_path)` kept as components. -/
structure FileData where
  path : List String
  name : String
  size : Nat
  language : String
  last_modified : Nat
  content : String
  statistics : Statistics
deriving DecidableEq

/-- The `error_data` dictionary appended to `analysis_data['errors']`:
the full (root-prefixed) file path and the exception message. -/
structure ErrorData where
  file : List String
  message : String
deriving DecidableEq

/-- The aggregate `analysis_data` dictionary. -/
structure AnalysisData where
  directory : List String
  files : List FileData
  errors : List ErrorData
deriving DecidableEq

/-- Outcome of the per-file body of the walk loop: a successful record,
a caught exception turned into an error record, or a silent skip
(`continue`). -/
inductive Outcome where
  | fileRec (f : FileData)
  | errRec (e : ErrorData)
  | skipped
deriving DecidableEq

/-- The body of the inner loop of `analyze_code_files` for one file:
the `should_skip_path` filter, then inside `try`: the size stat and the
10 MiB gate, the MIME sniff and text gate, the UTF-8 read, and the
assembly of `file_data`; any raised exception is caught and becomes an
`error_data` with the full path and the message. -/
def processFile (rootComps : List String) (rules : ExcludePatterns) (c : Cand) : Outcome :=
  if should_skip_path (rootComps ++ c.rel ++ [c.name]) rules then .skipped
  else
    match c.info.statResult with
    | .error m => .errRec ⟨rootComps ++ c.rel ++ [c.name], m⟩
    | .ok file_size =>
      if file_size > 10 * 1024 * 1024 then .skipped
      else if !(isTextLike c.info.mime) then .skipped
      else
        match c.info.readResult with
        | .error m => .errRec ⟨rootComps ++ c.rel ++ [c.name], m⟩
        | .ok content =>
          .fileRec
            { path := c.rel ++ [c.name],
              name := c.name,
              size := file_size,
              language := detect_language c.name content,
              last_modified := c.info.mtime,
              content := content,
              statistics :=
                { lines := pySplitlinesCount content,
                  characters := content.length } }

/-- Projection of an outcome to the record appended to `files`. -/
def outFile : Outcome → Option FileData
  | .fileRec f => some f
  | _ => none

/-- Projection of an outcome to the record appended to `errors`. -/
def outError : Outcome → Option ErrorData
  | .errRec e => some e
  | _ => none

/-- `analyze_code_files(directory_path, exclude_patterns)`: walk the
snapshot (`none` models a root that does not exist or is not a
directory, for which `os.walk` yields nothing) and fold the per-file
loop body over the candidates in walk order, appending successful
records to `files` and caught errors to `errors`; the root argument is
taken absolute, so `os.path.abspath` is the identity on it. -/
def analyze_code_files (rootComps : List String) (rules : ExcludePatterns)
    (fs : Option (List FSEntry)) : AnalysisData :=
  match fs with
  | none => { directory := rootComps, files := [], errors := [] }
  | some entries =>
    { directory := rootComps,
      files := (walkCands entries).filterMap
        (fun c => outFile (processFile rootComps rules c)),
      errors := (walkCands entries).filterMap
        (fun c => outError (processFile rootComps rules c)) }

/-- Hexadecimal digit (lowercase, as Python's `\uXXXX` escapes use). -/
def hexDigit (n : Nat) : Char :=
  if n < 10 then Char.ofNat (48 + n) else Char.ofNat (87 + n)

/-- Four-digit hexadecimal rendering. -/
def hex4 (n : Nat) : String :=
  String.mk [hexDigit (n / 4096 % 16), hexDigit (n / 256 % 16),
             hexDigit (n / 16 % 16), hexDigit (n % 16)]

/-- Python `json` `\uXXXX` escape of a code point, with a surrogate
pair beyond the basic multilingual plane. -/
def uEscape (n : Nat) : String :=
  if n ≤ 65535 then "\\u" ++ hex4 n
  else
    "\\u" ++ hex4 (55296 + (n - 65536) / 1024) ++
    "\\u" ++ hex4 (56320 + (n - 65536) % 1024)

/-- Escape of one character in a JSON string, following
`json.dump`'s default `ensure_ascii=True`: short escapes for the
common controls, `\uXXXX` for every other character outside the
printable ASCII range. -/
def jsonEscapeChar (c : Char) : String :=
  if c = '"' then "\\\""
  else if c = '\\' then "\\\\"
  else if c = '\n' then "\\n"
  else if c = '\r' then "\\r"
  else if c = '\t' then "\\t"
  else if c.toNat = 8 then "\\b"
  else if c.toNat = 12 then "\\f"
  else if c.toNat < 32 || c.toNat > 126 then uEscape c.toNat
  else String.singleton c

/-- JSON string literal for a text value. -/
def jsonStr (s : String) : String :=
  "\"" ++ String.join (s.toList.map jsonEscapeChar) ++ "\""

/-- Rendering of a component path back to a separator-joined string. -/
def renderPath (comps : List String) : String :=
  String.intercalate "/" comps

/-- A run of spaces for `indent=4` pretty-printing. -/
def indentN (n : Nat) : String :=
  String.mk (List.replicate n ' ')

/-- One `files` array element as `json.dump(..., indent=4)` lays it
out, with the surrounding indentation `ind` of the element. -/
def jsonFileObj (ind : Nat) (f : FileData) : String :=
  "\x7b\n" ++
  indentN (ind + 4) ++ "\"path\": " ++ jsonStr (renderPath f.path) ++ ",\n" ++
  indentN (ind + 4) ++ "\"name\": " ++ jsonStr f.name ++ ",\n" ++
  indentN (ind + 4) ++ "\"size\": " ++ toString f.size ++ ",\n" ++
  indentN (ind + 4) ++ "\"language\": " ++ jsonStr f.language ++ ",\n" ++
  indentN (ind + 4) ++ "\"last_modified\": " ++ toString f.last_modified ++ ",\n" ++
  indentN (ind + 4) ++ "\"content\": " ++ jsonStr f.content ++ ",\n" ++
  indentN (ind + 4) ++ "\"statistics\": \x7b\n" ++
  indentN (ind + 8) ++ "\"lines\": " ++ toString f.statistics.lines ++ ",\n" ++
  indentN (ind + 8) ++ "\"characters\": " ++ toString f.statistics.characters ++ "\n" ++
  indentN (ind + 4) ++ "\x7d\n" ++
  indentN ind ++ "\x7d"

/-- One `errors` array element. -/
def jsonErrorObj (ind : Nat) (e : ErrorData) : String :=
  "\x7b\n" ++
  indentN (ind + 4) ++ "\"file\": " ++ jsonStr (renderPath e.file) ++ ",\n" ++
  indentN (ind + 4) ++ "\"message\": " ++ jsonStr e.message ++ "\n" ++
  indentN ind ++ "\x7d"

/-- A JSON array at indentation `ind` whose elements are already
rendered; the empty array stays on one line, as `json.dump` prints it. -/
def jsonArr (ind : Nat) (items : List String) : String :=
  match items with
  | [] => "[]"
  | _ =>
    "[\n" ++
    String.intercalate ",\n" (items.map (fun s => indentN (ind + 4) ++ s)) ++
    "\n" ++ indentN ind ++ "]"

/-- `json.dump(analysis_data, f, indent=4)`: the serialized report
text, fields in insertion order. -/
def jsonDump (d : AnalysisData) : String :=
  "\x7b\n" ++
  indentN 4 ++ "\"directory\": " ++ jsonStr (renderPath d.directory) ++ ",\n" ++
  indentN 4 ++ "\"files\": " ++ jsonArr 4 (d.files.map (jsonFileObj 8)) ++ ",\n" ++
  indentN 4 ++ "\"errors\": " ++ jsonArr 4 (d.errors.map (jsonErrorObj 8)) ++ "\n" ++
  "\x7d"

/-- `save_output(analysis_data, output_file, format)`: for `'json'`,
open the output file and dump the serialized report (returned as the
pair destination/content of the single write that occurs); for any
other format, raise `ValueError(f"Unsupported output format:
{format}")` before opening anything — the error branch performs no
write at all. -/
def save_output (analysis_data : AnalysisData) (output_file : String)
    (format : String) : Except String (String × String) :=
  if format = "json" then .ok (output_file, jsonDump analysis_data)
  else .error ("Unsupported output format: " ++ format)

/-- The `main()` pipeline after argument parsing: analyze the given
directory with `DEFAULT_EXCLUDE` and save as JSON to `--output`. An
`Except.error` models an uncaught exception (non-zero exit); `.ok`
carries the single report write of a completed run (exit 0). -/
def runMain (directory : List String) (fs : Option (List FSEntry))
    (output : String) : Except String (String × String) :=
  save_output (analyze_code_files directory DEFAULT_EXCLUDE fs) output "json"

/-- Base names of a list of entries. -/
def namesOf (es : List FSEntry) : List String :=
  es.map entryName

/-- Well-formedness of a directory snapshot, as any real filesystem
satisfies it: within each directory the entry names are pairwise
distinct, recursively. -/
def wfB : List FSEntry → Bool
  | [] => true
  | e :: rest =>
      !((namesOf rest).contains (entryName e)) &&
      (match e with
       | .dir _ es => wfB es
       | _ => true) &&
      wfB rest

/-- The full walk below the directory at relative path `rel`: its own
files followed by the walks of its subdirectories. -/
def walkAll (rel : List String) (es : List FSEntry) : List Cand :=
  (walkPair rel es).1 ++ (walkPair rel es).2

/-- Names of the regular files among a directory's entries. -/
def fileNames (es : List FSEntry) : List String :=
  es.filterMap (fun e => match e with | .file n _ => some n | _ => none)

/-- Names of the readable subdirectories among a directory's entries. -/
def dirNames (es : List FSEntry) : List String :=
  es.filterMap (fun e => match e with | .dir n _ => some n | _ => none)

/-- Modelled from the spec: claim C1's exclusion condition, whose
ancestor check walks "from the path up to, but not including, the
traversal root's parent". For a file named `name` in the directory at
`rel` below the traversal root `rootComps`, the ancestors in that range
have base names `rootComps.getLastD ""` (the root itself) and the
components of `rel`; condition (b) is the lowercased extension check. -/
def specShouldExcludeC1 (rootComps rel : List String) (name : String)
    (rules : ExcludePatterns) : Bool :=
  ((rootComps.getLastD "" :: rel).any (fun d => rules.dirs.contains d)) ||
  rules.extensions.contains (strLower (pySuffix name))

/-- The same snapshot with every unreadable directory removed
(recursively); symlink targets are left untouched since the walk never
enters them. -/
def pruneUnreadable : List FSEntry → List FSEntry
  | [] => []
  | .file n i :: rest => .file n i :: pruneUnreadable rest
  | .dir n es :: rest => .dir n (pruneUnreadable es) :: pruneUnreadable rest
  | .symlinkDir n t :: rest => .symlinkDir n t :: pruneUnreadable rest
  | .unreadableDir _ :: rest => pruneUnreadable rest

/-- The same snapshot with every symbolic link to a directory removed
(recursively), together with whatever was reachable only through it. -/
def eraseSymlinks : List FSEntry → List FSEntry
  | [] => []
  | .file n i :: rest => .file n i :: eraseSymlinks rest
  | .dir n es :: rest => .dir n (eraseSymlinks es) :: eraseSymlinks rest
  | .symlinkDir _ _ :: rest => eraseSymlinks rest
  | .unreadableDir n :: rest => .unreadableDir n :: eraseSymlinks rest

example : should_skip_path ["a", "node_modules", "c", "d.js"] DEFAULT_EXCLUDE = true := by decide
example : should_skip_path ["a", "b.py"] DEFAULT_EXCLUDE = false := by decide
example : should_skip_path ["a", "b.JSON"] DEFAULT_EXCLUDE = true := by decide
example : pySuffix "archive.tar.gz" = ".gz" := by decide
example : pySuffix ".bashrc" = "" := by decide
example : pySuffix "file." = "" := by decide
example : detect_language "x.PY" "" = "Python" := by decide
example : detect_language "x.sh" "" = "Unknown" := by decide
example : pySplitlinesCount "a\nb" = 2 := by decide
example : pySplitlinesCount "a\r\nb\n" = 2 := by decide
example : pySplitlinesCount "" = 0 := by decide
example : pySplitlinesCount "\n" = 1 := by decide
example : pySplitlinesCount "a\x0bb" = 2 := by decide
example : crlfSegments "a\x0bb" = 1 := by decide
example :
    walkCands [.dir "d" [.file "b.py" ⟨.ok 1, "text/plain", .ok "y", 0⟩],
               .file "a.py" ⟨.ok 3, "text/plain", .ok "x", 0⟩] =
    [⟨[], "a.py", ⟨.ok 3, "text/plain", .ok "x", 0⟩⟩,
     ⟨["d"], "b.py", ⟨.ok 1, "text/plain", .ok "y", 0⟩⟩] := by
  simp [walkCands, walkPair]
example :
    (analyze_code_files ["r"] DEFAULT_EXCLUDE
      (some [.file "a.py" ⟨.ok 3, "text/plain", .ok "x=1\n", 7⟩])).files =
    [{ path := ["a.py"], name := "a.py", size := 3, language := "Python",
       last_modified := 7, content := "x=1\n",
       statistics := { lines := 1, characters := 4 } }] := by
  simp [analyze_code_files, walkCands, walkPair, processFile]
  decide

theorem outFile_eq_some {o : Outcome} {f : FileData} :
    outFile o = some f ↔ o = .fileRec f := by
  cases o <;> simp [outFile]

theorem outError_eq_some {o : Outcome} {e : ErrorData} :
    outError o = some e ↔ o = .errRec e := by
  cases o <;> simp [outError]

theorem mem_files_iff {root : List String} {rules : ExcludePatterns}
    {es : List FSEntry} {f : FileData} :
    f ∈ (analyze_code_files root rules (some es)).files ↔
      ∃ c ∈ walkCands es, processFile root rules c = .fileRec f := by
  simp [analyze_code_files, List.mem_filterMap, outFile_eq_some]

theorem mem_errors_iff {root : List String} {rules : ExcludePatterns}
    {es : List FSEntry} {e : ErrorData} :
    e ∈ (analyze_code_files root rules (some es)).errors ↔
      ∃ c ∈ walkCands es, processFile root rules c = .errRec e := by
  simp [analyze_code_files, List.mem_filterMap, outError_eq_some]

theorem processFile_skip_of_filter {root : List String} {rules : ExcludePatterns}
    {c : Cand} (h : should_skip_path (root ++ c.rel ++ [c.name]) rules = true) :
    processFile root rules c = .skipped := by
  unfold processFile
  rw [h]
  simp

theorem processFile_skip_of_size {root : List String} {rules : ExcludePatterns}
    {c : Cand} {sz : Nat}
    (h : should_skip_path (root ++ c.rel ++ [c.name]) rules = false)
    (hs : c.info.statResult = .ok sz) (hgt : sz > 10 * 1024 * 1024) :
    processFile root rules c = .skipped := by
  unfold processFile
  rw [h, hs]
  simp [hgt]

theorem processFile_skip_of_mime {root : List String} {rules : ExcludePatterns}
    {c : Cand} {sz : Nat}
    (h : should_skip_path (root ++ c.rel ++ [c.name]) rules = false)
    (hs : c.info.statResult = .ok sz) (hle : sz ≤ 10 * 1024 * 1024)
    (hm : isTextLike c.info.mime = false) :
    processFile root rules c = .skipped := by
  unfold processFile
  rw [h, hs]
  simp [Nat.not_lt.mpr hle, hm]

theorem processFile_eq_rec {root : List String} {rules : ExcludePatterns}
    {c : Cand} {sz : Nat} {content : String}
    (h : should_skip_path (root ++ c.rel ++ [c.name]) rules = false)
    (hs : c.info.statResult = .ok sz) (hle : sz ≤ 10 * 1024 * 1024)
    (hm : isTextLike c.info.mime = true) (hr : c.info.readResult = .ok content) :
    processFile root rules c = .fileRec
      { path := c.rel ++ [c.name],
        name := c.name,
        size := sz,
        language := detect_language c.name content,
        last_modified := c.info.mtime,
        content := content,
        statistics :=
          { lines := pySplitlinesCount content,
            characters := content.length } } := by
  unfold processFile
  rw [h, hs, hr]
  simp [Nat.not_lt.mpr hle, hm]

theorem processFile_eq_err_read {root : List String} {rules : ExcludePatterns}
    {c : Cand} {sz : Nat} {m : String}
    (h : should_skip_path (root ++ c.rel ++ [c.name]) rules = false)
    (hs : c.info.statResult = .ok sz) (hle : sz ≤ 10 * 1024 * 1024)
    (hm : isTextLike c.info.mime = true) (hr : c.info.readResult = .error m) :
    processFile root rules c = .errRec ⟨root ++ c.rel ++ [c.name], m⟩ := by
  unfold processFile
  rw [h, hs, hr]
  simp [Nat.not_lt.mpr hle, hm]

theorem processFile_eq_err_stat {root : List String} {rules : ExcludePatterns}
    {c : Cand} {m : String}
    (h : should_skip_path (root ++ c.rel ++ [c.name]) rules = false)
    (hs : c.info.statResult = .error m) :
    processFile root rules c = .errRec ⟨root ++ c.rel ++ [c.name], m⟩ := by
  unfold processFile
  rw [h, hs]
  simp

theorem processFile_fileRec_inv {root : List String} {rules : ExcludePatterns}
    {c : Cand} {f : FileData}
    (h : processFile root rules c = .fileRec f) :
    should_skip_path (root ++ c.rel ++ [c.name]) rules = false ∧
    f.path = c.rel ++ [c.name] ∧ f.name = c.name ∧
    f.statistics.lines = pySplitlinesCount f.content ∧
    f.statistics.characters = f.content.length := by
  unfold processFile at h
  repeat' split at h
  all_goals first
    | (exact Outcome.noConfusion h)
    | (injection h with h; subst h; simp_all)

theorem processFile_errRec_inv {root : List String} {rules : ExcludePatterns}
    {c : Cand} {e : ErrorData}
    (h : processFile root rules c = .errRec e) :
    should_skip_path (root ++ c.rel ++ [c.name]) rules = false ∧
    e.file = root ++ c.rel ++ [c.name] := by
  unfold processFile at h
  repeat' split at h
  all_goals first
    | (exact Outcome.noConfusion h)
    | (injection h with h; subst h; simp_all)

theorem fileNames_file_cons {n : String} {i : FileInfo} {rest : List FSEntry} :
    fileNames (.file n i :: rest) = n :: fileNames rest := by
  simp [fileNames]

theorem fileNames_dir_cons {n : String} {es : List FSEntry} {rest : List FSEntry} :
    fileNames (.dir n es :: rest) = fileNames rest := by
  simp [fileNames]

theorem fileNames_symlink_cons {n : String} {t : List FSEntry} {rest : List FSEntry} :
    fileNames (.symlinkDir n t :: rest) = fileNames rest := by
  simp [fileNames]

theorem fileNames_unreadable_cons {n : String} {rest : List FSEntry} :
    fileNames (.unreadableDir n :: rest) = fileNames rest := by
  simp [fileNames]

theorem dirNames_file_cons {n : String} {i : FileInfo} {rest : List FSEntry} :
    dirNames (.file n i :: rest) = dirNames rest := by
  simp [dirNames]

theorem dirNames_dir_cons {n : String} {es : List FSEntry} {rest : List FSEntry} :
    dirNames (.dir n es :: rest) = n :: dirNames rest := by
  simp [dirNames]

theorem dirNames_symlink_cons {n : String} {t : List FSEntry} {rest : List FSEntry} :
    dirNames (.symlinkDir n t :: rest) = dirNames rest := by
  simp [dirNames]

theorem dirNames_unreadable_cons {n : String} {rest : List FSEntry} :
    dirNames (.unreadableDir n :: rest) = dirNames rest := by
  simp [dirNames]

theorem fileNames_subset_names {es : List FSEntry} {n : String}
    (h : n ∈ fileNames es) : n ∈ namesOf es := by
  rcases List.mem_filterMap.mp h with ⟨e, he, hm⟩
  cases e with
  | file n' i =>
    simp at hm
    subst hm
    exact List.mem_map.mpr ⟨_, he, rfl⟩
  | dir n' es' => simp at hm
  | symlinkDir n' t => simp at hm
  | unreadableDir n' => simp at hm

theorem dirNames_subset_names {es : List FSEntry} {n : String}
    (h : n ∈ dirNames es) : n ∈ namesOf es := by
  rcases List.mem_filterMap.mp h with ⟨e, he, hm⟩
  cases e with
  | file n' i => simp at hm
  | dir n' es' =>
    simp at hm
    subst hm
    exact List.mem_map.mpr ⟨_, he, rfl⟩
  | symlinkDir n' t => simp at hm
  | unreadableDir n' => simp at hm

theorem walkAll_nil {rel : List String} : walkAll rel [] = [] := by
  simp [walkAll, walkPair]

theorem walkAll_file_cons {rel : List String} {n : String} {i : FileInfo}
    {rest : List FSEntry} :
    walkAll rel (.file n i :: rest) = ⟨rel, n, i⟩ :: walkAll rel rest := by
  simp [walkAll, walkPair]

theorem walkAll_symlink_cons {rel : List String} {n : String}
    {t : List FSEntry} {rest : List FSEntry} :
    walkAll rel (.symlinkDir n t :: rest) = walkAll rel rest := by
  simp [walkAll, walkPair]

theorem walkAll_unreadable_cons {rel : List String} {n : String}
    {rest : List FSEntry} :
    walkAll rel (.unreadableDir n :: rest) = walkAll rel rest := by
  simp [walkAll, walkPair]

theorem mem_walkAll_dir_cons {c : Cand} {rel : List String} {n : String}
    {es : List FSEntry} {rest : List FSEntry} :
    c ∈ walkAll rel (.dir n es :: rest) ↔
      c ∈ walkAll (rel ++ [n]) es ∨ c ∈ walkAll rel rest := by
  simp only [walkAll, walkPair, List.mem_append]
  tauto

theorem walkPair_shape (rel : List String) (es : List FSEntry) :
    (∀ c ∈ (walkPair rel es).1, c.rel = rel ∧ c.name ∈ fileNames es) ∧
    (∀ c ∈ (walkPair rel es).2, ∃ n t, n ∈ dirNames es ∧ c.rel = rel ++ n :: t) := by
  induction rel, es using walkPair.induct with
  | case1 rel => simp [walkPair]
  | case2 rel n i rest ih =>
    constructor
    · intro c hc
      simp only [walkPair, List.mem_cons] at hc
      rcases hc with rfl | hc
      · exact ⟨rfl, by simp [fileNames_file_cons]⟩
      · rcases ih.1 c hc with ⟨h1, h2⟩
        exact ⟨h1, by simp [fileNames_file_cons, h2]⟩
    · intro c hc
      simp only [walkPair] at hc
      rcases ih.2 c hc with ⟨n', t, hn, hr⟩
      exact ⟨n', t, by simp [dirNames_file_cons, hn], hr⟩
  | case3 rel n es' rest ih1 ih2 =>
    constructor
    · intro c hc
      simp only [walkPair] at hc
      rcases ih2.1 c hc with ⟨h1, h2⟩
      exact ⟨h1, by simp [fileNames_dir_cons, h2]⟩
    · intro c hc
      simp only [walkPair, List.mem_append] at hc
      rcases hc with (hc | hc) | hc
      · rcases ih1.1 c hc with ⟨h1, _⟩
        exact ⟨n, [], by simp [dirNames_dir_cons], by simp [h1]⟩
      · rcases ih1.2 c hc with ⟨n', t, _, hr⟩
        refine ⟨n, n' :: t, by simp [dirNames_dir_cons], ?_⟩
        rw [hr]
        simp
      · rcases ih2.2 c hc with ⟨n', t, hn, hr⟩
        exact ⟨n', t, by simp [dirNames_dir_cons, hn], hr⟩
  | case4 rel n t rest ih =>
    constructor
    · intro c hc
      simp only [walkPair] at hc
      rcases ih.1 c hc with ⟨h1, h2⟩
      exact ⟨h1, by simp [fileNames_symlink_cons, h2]⟩
    · intro c hc
      simp only [walkPair] at hc
      rcases ih.2 c hc with ⟨n', t', hn, hr⟩
      exact ⟨n', t', by simp [dirNames_symlink_cons, hn], hr⟩
  | case5 rel n rest ih =>
    constructor
    · intro c hc
      simp only [walkPair] at hc
      rcases ih.1 c hc with ⟨h1, h2⟩
      exact ⟨h1, by simp [fileNames_unreadable_cons, h2]⟩
    · intro c hc
      simp only [walkPair] at hc
      rcases ih.2 c hc with ⟨n', t', hn, hr⟩
      exact ⟨n', t', by simp [dirNames_unreadable_cons, hn], hr⟩

theorem mem_walkAll_shape {c : Cand} {rel : List String} {es : List FSEntry}
    (h : c ∈ walkAll rel es) :
    (c.rel = rel ∧ c.name ∈ fileNames es) ∨
    ∃ n t, n ∈ dirNames es ∧ c.rel = rel ++ n :: t := by
  rcases List.mem_append.mp h with h | h
  · exact Or.inl ((walkPair_shape rel es).1 c h)
  · exact Or.inr ((walkPair_shape rel es).2 c h)

theorem mem_walkAll_rel_ext {c : Cand} {rel : List String} {n : String}
    {es : List FSEntry} (h : c ∈ walkAll (rel ++ [n]) es) :
    ∃ t, c.rel = rel ++ n :: t := by
  rcases mem_walkAll_shape h with ⟨h1, _⟩ | ⟨n', t, _, h1⟩
  · exact ⟨[], by simp [h1]⟩
  · refine ⟨n' :: t, ?_⟩
    rw [h1]
    simp

theorem wfB_file_inv {n : String} {i : FileInfo} {rest : List FSEntry}
    (h : wfB (.file n i :: rest) = true) :
    n ∉ namesOf rest ∧ wfB rest = true := by
  simp [wfB, entryName] at h
  tauto

theorem wfB_dir_inv {n : String} {es : List FSEntry} {rest : List FSEntry}
    (h : wfB (.dir n es :: rest) = true) :
    n ∉ namesOf rest ∧ wfB es = true ∧ wfB rest = true := by
  simp [wfB, entryName] at h
  tauto

theorem wfB_symlink_inv {n : String} {t : List FSEntry} {rest : List FSEntry}
    (h : wfB (.symlinkDir n t :: rest) = true) : wfB rest = true := by
  simp [wfB, entryName] at h
  tauto

theorem wfB_unreadable_inv {n : String} {rest : List FSEntry}
    (h : wfB (.unreadableDir n :: rest) = true) : wfB rest = true := by
  simp [wfB, entryName] at h
  tauto

theorem walkAll_dir_cons {rel : List String} {n : String} {es : List FSEntry}
    {rest : List FSEntry} :
    walkAll rel (.dir n es :: rest) =
      (walkPair rel rest).1 ++ (walkAll (rel ++ [n]) es ++ (walkPair rel rest).2) := by
  simp [walkAll, walkPair]

theorem walkAll_eq_pair {rel : List String} {es : List FSEntry} :
    walkAll rel es = (walkPair rel es).1 ++ (walkPair rel es).2 := rfl

theorem walkAll_keys_nodup : ∀ (rel : List String) (es : List FSEntry),
    wfB es = true → ((walkAll rel es).map candKey).Nodup := by
  intro rel es
  induction rel, es using walkPair.induct with
  | case1 rel => intro _; simp [walkAll_nil]
  | case2 rel n i rest ih =>
    intro h
    obtain ⟨hn, hrest⟩ := wfB_file_inv h
    rw [walkAll_file_cons]
    simp only [List.map_cons, List.nodup_cons]
    refine ⟨?_, ih hrest⟩
    intro hmem
    rcases List.mem_map.mp hmem with ⟨c, hc, hkey⟩
    simp only [candKey, Prod.mk.injEq] at hkey
    rcases mem_walkAll_shape hc with ⟨h1, h2⟩ | ⟨n', t, _, h1⟩
    · exact hn (fileNames_subset_names (hkey.2 ▸ h2))
    · rw [h1] at hkey
      have := congrArg List.length hkey.1
      simp at this
  | case3 rel n es' rest ih1 ih2 =>
    intro h
    obtain ⟨hn, hes, hrest⟩ := wfB_dir_inv h
    have hB := ih1 hes
    have hAC := ih2 hrest
    rw [walkAll_eq_pair, List.map_append, List.nodup_append] at hAC
    obtain ⟨hA, hC, hACdisj⟩ := hAC
    rw [walkAll_dir_cons]
    simp only [List.map_append]
    rw [List.nodup_append]
    refine ⟨hA, ?_, ?_⟩
    · rw [List.nodup_append]
      refine ⟨hB, hC, ?_⟩
      -- keys of the subwalk vs keys of the later siblings' walks
      intro k hkB hkC
      rcases List.mem_map.mp hkB with ⟨cb, hcb, hkb⟩
      rcases List.mem_map.mp hkC with ⟨cc, hcc, hkc⟩
      rcases mem_walkAll_rel_ext hcb with ⟨t, hbrel⟩
      rcases (walkPair_shape rel rest).2 cc hcc with ⟨n', t', hn', hcrel⟩
      have : cb.rel = cc.rel := by
        have := hkb.trans hkc.symm
        simpa [candKey, Prod.mk.injEq] using congrArg Prod.fst this
      rw [hbrel, hcrel] at this
      have hcons := List.append_cancel_left this
      have : n = n' := (List.cons.injEq _ _ _ _ ▸ hcons).1
      exact hn (dirNames_subset_names (this ▸ hn'))
    · -- keys of this directory's own files vs everything deeper or later
      intro k hkA hkBC
      rcases List.mem_map.mp hkA with ⟨ca, hca, hka⟩
      have harel : ca.rel = rel := ((walkPair_shape rel rest).1 ca hca).1
      rcases List.mem_append.mp hkBC with hkB | hkC
      · rcases List.mem_map.mp hkB with ⟨cb, hcb, hkb⟩
        rcases mem_walkAll_rel_ext hcb with ⟨t, hbrel⟩
        have : ca.rel = cb.rel := by
          have := hka.trans hkb.symm
          simpa [candKey, Prod.mk.injEq] using congrArg Prod.fst this
        rw [harel, hbrel] at this
        have := congrArg List.length this
        simp at this
      · exact hACdisj hkA hkC
  | case4 rel n t rest ih =>
    intro h
    rw [walkAll_symlink_cons]
    exact ih (wfB_symlink_inv h)
  | case5 rel n rest ih =>
    intro h
    rw [walkAll_unreadable_cons]
    exact ih (wfB_unreadable_inv h)

theorem walkCands_keys_nodup {es : List FSEntry} (h : wfB es = true) :
    ((walkCands es).map candKey).Nodup :=
  walkAll_keys_nodup [] es h

theorem walk_key_inj {es : List FSEntry} {c₁ c₂ : Cand} (h : wfB es = true)
    (h1 : c₁ ∈ walkCands es) (h2 : c₂ ∈ walkCands es)
    (hk : candKey c₁ = candKey c₂) : c₁ = c₂ :=
  List.inj_on_of_nodup_map (walkCands_keys_nodup h) h1 h2 hk

theorem concat_inj {l₁ l₂ : List String} {a b : String}
    (h : l₁ ++ [a] = l₂ ++ [b]) : l₁ = l₂ ∧ a = b := by
  have := List.append_inj' h (by simp)
  exact ⟨this.1, by simpa using this.2⟩

theorem root_concat_inj {root l₁ l₂ : List String} {a b : String}
    (h : root ++ l₁ ++ [a] = root ++ l₂ ++ [b]) : l₁ = l₂ ∧ a = b := by
  rw [List.append_assoc root l₁, List.append_assoc root l₂] at h
  exact concat_inj (List.append_cancel_left h)

theorem skipped_absent {root : List String} {rules : ExcludePatterns}
    {es : List FSEntry} {c : Cand} (hwf : wfB es = true)
    (hc : c ∈ walkCands es)
    (hskip : processFile root rules c = .skipped) :
    (∀ f ∈ (analyze_code_files root rules (some es)).files,
       f.path ≠ c.rel ++ [c.name]) ∧
    (∀ e ∈ (analyze_code_files root rules (some es)).errors,
       e.file ≠ root ++ c.rel ++ [c.name]) := by
  constructor
  · intro f hf heq
    rcases mem_files_iff.mp hf with ⟨c', hc', hp⟩
    have inv := processFile_fileRec_inv hp
    have hkey : candKey c' = candKey c := by
      have h1 : c'.rel ++ [c'.name] = c.rel ++ [c.name] := by
        rw [← inv.2.1, heq]
      have h2 := concat_inj h1
      simp [candKey, h2.1, h2.2]
    have := walk_key_inj hwf hc' hc hkey
    rw [this, hskip] at hp
    exact Outcome.noConfusion hp
  · intro e he heq
    rcases mem_errors_iff.mp he with ⟨c', hc', hp⟩
    have inv := processFile_errRec_inv hp
    have hkey : candKey c' = candKey c := by
      have h1 : root ++ c'.rel ++ [c'.name] = root ++ c.rel ++ [c.name] := by
        rw [← inv.2, heq]
      have h2 := root_concat_inj h1
      simp [candKey, h2.1, h2.2]
    have := walk_key_inj hwf hc' hc hkey
    rw [this, hskip] at hp
    exact Outcome.noConfusion hp

theorem not_skip_ancestors {comps : List String} {rules : ExcludePatterns}
    (h : should_skip_path comps rules = false) :
    ∀ d ∈ comps.dropLast, d ∉ rules.dirs := by
  intro d hd hmem
  simp only [should_skip_path, parentNames, Bool.or_eq_false_iff,
    List.any_eq_false] at h
  have h2 := h.1 d (List.mem_append_left _ hd)
  simp [hmem] at h2

theorem walkPair_pruneUnreadable : ∀ (rel : List String) (es : List FSEntry),
    walkPair rel (pruneUnreadable es) = walkPair rel es := by
  intro rel es
  induction rel, es using walkPair.induct with
  | case1 rel => simp [pruneUnreadable]
  | case2 rel n i rest ih => simp [pruneUnreadable, walkPair, ih]
  | case3 rel n es' rest ih1 ih2 => simp [pruneUnreadable, walkPair, ih1, ih2]
  | case4 rel n t rest ih => simp [pruneUnreadable, walkPair, ih]
  | case5 rel n rest ih => simp [pruneUnreadable, walkPair, ih]

theorem walkPair_eraseSymlinks : ∀ (rel : List String) (es : List FSEntry),
    walkPair rel (eraseSymlinks es) = walkPair rel es := by
  intro rel es
  induction rel, es using walkPair.induct with
  | case1 rel => simp [eraseSymlinks]
  | case2 rel n i rest ih => simp [eraseSymlinks, walkPair, ih]
  | case3 rel n es' rest ih1 ih2 => simp [eraseSymlinks, walkPair, ih1, ih2]
  | case4 rel n t rest ih => simp [eraseSymlinks, walkPair, ih]
  | case5 rel n rest ih => simp [eraseSymlinks, walkPair, ih]

theorem segCountAux_congr (p q : Char → Bool) :
    ∀ (N : Nat) (cs : List Char) (b : Bool), cs.length ≤ N →
      (∀ c ∈ cs, p c = q c) → segCountAux p cs b = segCountAux q cs b := by
  intro N
  induction N with
  | zero =>
    intro cs b hlen _
    cases cs with
    | nil => rfl
    | cons c rest => simp at hlen
  | succ N ih =>
    intro cs b hlen h
    match cs with
    | [] => rfl
    | [c] => simp [segCountAux]
    | c₁ :: c₂ :: rest =>
      have h1 : p c₁ = q c₁ := h c₁ (by simp)
      have hrest : ∀ c ∈ c₂ :: rest, p c = q c := fun c hc => h c (by simp [hc])
      have hrest2 : ∀ c ∈ rest, p c = q c := fun c hc => hrest c (by simp [hc])
      have hlen2 : (c₂ :: rest).length ≤ N := by
        simp only [List.length_cons] at hlen ⊢
        omega
      have hlenr : rest.length ≤ N := by
        simp only [List.length_cons] at hlen
        omega
      by_cases hcr : c₁ = '\r' ∧ c₂ = '\n'
      · simp only [segCountAux, if_pos hcr]
        exact congrArg (1 + ·) (ih rest false hlenr hrest2)
      · by_cases hb : p c₁ = true
        · have hqb : q c₁ = true := h1 ▸ hb
          simp only [segCountAux, if_neg hcr, if_pos hb, if_pos hqb]
          exact congrArg (1 + ·) (ih (c₂ :: rest) false hlen2 hrest)
        · have hq : ¬ q c₁ = true := by rw [← h1]; exact hb
          simp only [segCountAux, if_neg hcr, if_neg hb, if_neg hq]
          exact ih (c₂ :: rest) true hlen2 hrest

theorem not_fileRec_absent {root : List String} {rules : ExcludePatterns}
    {es : List FSEntry} {c : Cand} (hwf : wfB es = true)
    (hc : c ∈ walkCands es)
    (hne : ∀ f' : FileData, processFile root rules c ≠ .fileRec f') :
    ∀ f ∈ (analyze_code_files root rules (some es)).files,
      f.path ≠ c.rel ++ [c.name] := by
  intro f hf heq
  rcases mem_files_iff.mp hf with ⟨c', hc', hp⟩
  have inv := processFile_fileRec_inv hp
  have hkey : candKey c' = candKey c := by
    have h1 : c'.rel ++ [c'.name] = c.rel ++ [c.name] := by
      rw [← inv.2.1, heq]
    have h2 := concat_inj h1
    simp [candKey, h2.1, h2.2]
  have := walk_key_inj hwf hc' hc hkey
  rw [this] at hp
  exact hne f hp

theorem nodup_filterMap_keyed {α β κ : Type} (l : List α) (key : α → κ)
    (F : α → Option β) (emb : κ → β)
    (hF : ∀ a b, F a = some b → b = emb (key a))
    (hemb : Function.Injective emb)
    (h : (l.map key).Nodup) : (l.filterMap F).Nodup := by
  induction l with
  | nil => simp
  | cons a rest ih =>
    simp only [List.map_cons, List.nodup_cons] at h
    obtain ⟨hna, hrest⟩ := h
    cases hFa : F a with
    | none => simpa [List.filterMap_cons, hFa] using ih hrest
    | some b =>
      simp only [List.filterMap_cons, hFa, List.nodup_cons]
      refine ⟨?_, ih hrest⟩
      intro hbmem
      rcases List.mem_filterMap.mp hbmem with ⟨a', ha', hFa'⟩
      have hb := hF a b hFa
      have hb' := hF a' b hFa'
      have hkk : emb (key a) = emb (key a') := by rw [← hb, ← hb']
      have := hemb hkk
      exact hna (this ▸ List.mem_map.mpr ⟨a', ha', rfl⟩)

/-- Claim C6 counterexample: with a root that does not exist (the walk
enumerates nothing), the run does not fail — it completes and writes a
report whose `files` and `errors` are empty, contradicting the claimed
fatal startup error. -/
theorem C6_rootMissing_counterexample :
    runMain ["missing"] none "out.json" =
      .ok ("out.json",
        jsonDump { directory := ["missing"], files := [], errors := [] }) := by
  rfl

/-- Claim C6 (amended): if the given root directory does not exist or is
not a directory, `os.walk` yields no triples, so the run completes
normally (exit 0) and writes a report with an empty `files` and `errors`
to the output file, instead of failing at startup. -/
theorem C6_rootMissing_amended :
    ∀ (directory : List String) (output : String),
      runMain directory none output =
        .ok (output,
          jsonDump { directory := directory, files := [], errors := [] }) := by
  intro d o
  rfl

/-- Claim C8: `save_output` with any format other than `"json"` raises
`ValueError` naming the requested format before any write occurs (the
error branch performs no write), and with format `"json"` it writes the
full serialized result to the destination. -/
theorem C8_unsupportedFormat :
    ∀ (d : AnalysisData) (dest fmt : String),
      (fmt ≠ "json" →
        save_output d dest fmt = .error ("Unsupported output format: " ++ fmt)) ∧
      save_output d dest "json" = .ok (dest, jsonDump d) := by
  intro d dest fmt
  exact ⟨fun h => by simp [save_output, h], by simp [save_output]⟩

/-- Witness for C8 at the concrete format `"xml"` of the spec's
Scenario E, and at `"json"`. -/
theorem C8_unsupportedFormat_witness :
    save_output { directory := ["r"], files := [], errors := [] }
        "code_analysis.json" "xml" = .error "Unsupported output format: xml" ∧
    save_output { directory := ["r"], files := [], errors := [] }
        "code_analysis.json" "json" =
      .ok ("code_analysis.json",
        jsonDump { directory := ["r"], files := [], errors := [] }) := by
  constructor
  · exact (C8_unsupportedFormat _ _ "xml").1 (by decide)
  · exact (C8_unsupportedFormat _ _ "json").2

/-- Claim C5 counterexample: a directory whose entries cannot be
enumerated produces no ErrorRecord at all (`os.walk` with the default
`onerror=None` swallows the failure silently), while its sibling file is
still analyzed — so the claimed error record for the directory path is
absent. -/
theorem C5_unreadableDir_counterexample :
    (analyze_code_files ["r"] DEFAULT_EXCLUDE
        (some [.unreadableDir "locked",
               .file "a.py" ⟨.ok 3, "text/plain", .ok "x=1\n", 0⟩])).errors =
      [] ∧
    ((analyze_code_files ["r"] DEFAULT_EXCLUDE
        (some [.unreadableDir "locked",
               .file "a.py" ⟨.ok 3, "text/plain", .ok "x=1\n", 0⟩])).files.map
        (fun f => f.path)) = [["a.py"]] := by
  constructor
  · simp [analyze_code_files, walkCands, walkPair]
    decide
  · simp [analyze_code_files, walkCands, walkPair]
    decide

/-- Claim C5 (amended): a directory whose entries cannot be enumerated
is silently skipped: the analysis result is identical to the result on
the same snapshot with every unreadable directory removed — in
particular no ErrorRecord is recorded for it — and traversal continues
with the siblings. -/
theorem C5_unreadableDir_amended :
    ∀ (root : List String) (rules : ExcludePatterns) (es : List FSEntry),
      analyze_code_files root rules (some (pruneUnreadable es)) =
        analyze_code_files root rules (some es) := by
  intro root rules es
  simp [analyze_code_files, walkCands, walkPair_pruneUnreadable]

/-- Claim C10: the traversal never descends through symbolic links to
directories (`os.walk` defaults to `followlinks=False`): the analysis
result is identical to the result on the same snapshot with every
directory symlink (and everything reachable only through it) removed, so
files reachable only through a directory symlink appear in neither
`files` nor `errors`; the walk itself is a total function of the finite
snapshot, so it terminates without ever resolving a link target — in
particular link cycles are never entered. -/
theorem C10_symlinks :
    ∀ (root : List String) (rules : ExcludePatterns) (es : List FSEntry),
      analyze_code_files root rules (some (eraseSymlinks es)) =
        analyze_code_files root rules (some es) := by
  intro root rules es
  simp [analyze_code_files, walkCands, walkPair_eraseSymlinks]

/-- Claim C7 counterexample: for a file whose content is "a\x0bb"
(a vertical tab between two letters), the produced FileRecord has
lineCount 2 — Python `str.splitlines` also breaks at VT — while the
claimed universal splitting on exactly CR, LF, or CRLF yields a single
segment. -/
theorem C7_lineCount_counterexample :
    ((analyze_code_files ["r"] DEFAULT_EXCLUDE
        (some [.file "a.txt" ⟨.ok 3, "text/plain", .ok "a\x0bb", 0⟩])).files.map
        (fun f => (f.statistics.lines, crlfSegments f.content))) = [(2, 1)] := by
  simp [analyze_code_files, walkCands, walkPair]
  decide

/-- Claim C7 (amended): for every FileRecord, `lineCount` equals
`len(content.splitlines())`, whose break set is CR, LF, CRLF and
additionally VT, FF, FS, GS, RS, NEL, LINE SEPARATOR and PARAGRAPH
SEPARATOR — and agrees with splitting on exactly CR, LF, or CRLF
whenever the content contains none of the extra break characters — and
`characterCount` equals the number of decoded code points of `content`,
not its byte length. -/
theorem C7_statistics_amended :
    ∀ (root : List String) (rules : ExcludePatterns) (es : List FSEntry)
      (f : FileData), f ∈ (analyze_code_files root rules (some es)).files →
      f.statistics.lines = pySplitlinesCount f.content ∧
      f.statistics.characters = f.content.length ∧
      ((∀ c ∈ f.content.toList, isPyLineBreak c = isCRLFBreak c) →
        f.statistics.lines = crlfSegments f.content) := by
  intro root rules es f hf
  rcases mem_files_iff.mp hf with ⟨c, hc, hp⟩
  have inv := processFile_fileRec_inv hp
  refine ⟨inv.2.2.2.1, inv.2.2.2.2, ?_⟩
  intro hno
  rw [inv.2.2.2.1]
  simpa [pySplitlinesCount, crlfSegments] using
    segCountAux_congr isPyLineBreak isCRLFBreak f.content.toList.length
      f.content.toList false (le_refl _) hno

/-- Witness for C7 (amended) at the spec's Scenario A file `a.py` with
content "x=1\n": its record's line count agrees with CR/LF/CRLF
splitting. -/
theorem C7_statistics_amended_witness :
    ({ path := ["a.py"], name := "a.py", size := 3, language := "Python",
       last_modified := 7, content := "x=1\n",
       statistics := { lines := 1, characters := 4 } } : FileData).statistics.lines =
      crlfSegments
        ({ path := ["a.py"], name := "a.py", size := 3, language := "Python",
           last_modified := 7, content := "x=1\n",
           statistics := { lines := 1, characters := 4 } } : FileData).content := by
  have hEval : (analyze_code_files ["r"] DEFAULT_EXCLUDE
      (some [.file "a.py" ⟨.ok 3, "text/plain", .ok "x=1\n", 7⟩])).files =
      [{ path := ["a.py"], name := "a.py", size := 3, language := "Python",
         last_modified := 7, content := "x=1\n",
         statistics := { lines := 1, characters := 4 } }] := by
    simp [analyze_code_files, walkCands, walkPair]
    decide
  refine (C7_statistics_amended ["r"] DEFAULT_EXCLUDE
    [.file "a.py" ⟨.ok 3, "text/plain", .ok "x=1\n", 7⟩] _ ?_).2.2 (by decide)
  rw [hEval]
  simp

/-- Claim C1 counterexample: for a run whose traversal root is
`node_modules/proj`, the direct child `a.py` is excluded by the code —
`Path.parents` walks past the traversal root and finds the ancestor
named `node_modules` — while the claimed condition, whose ancestor walk
stops before the traversal root's parent, does not exclude it; so the
claimed equivalence fails at this path. -/
theorem C1_pathFilter_counterexample :
    ¬ (should_skip_path (["node_modules", "proj"] ++ [] ++ ["a.py"]) DEFAULT_EXCLUDE =
        specShouldExcludeC1 ["node_modules", "proj"] [] "a.py" DEFAULT_EXCLUDE) := by
  decide

/-- Claim C1 (amended): `should_skip_path` returns true iff some
ancestor component of the path as given — walking all the way to the
filesystem anchor, including components above the traversal root, the
anchor itself contributing the empty name — is in
`rules.excludedDirectoryNames`, or the path's extension, lowercased and
including the leading dot, is in `rules.excludedExtensions`;
consequently no record (file or error) of any analysis result lies
under a directory whose base name is excluded, at any nesting depth. -/
theorem C1_pathFilter_amended :
    (∀ (comps : List String) (rules : ExcludePatterns),
        should_skip_path comps rules = true ↔
          ((∃ d ∈ comps.dropLast, d ∈ rules.dirs) ∨ "" ∈ rules.dirs ∨
           strLower (pySuffix (comps.getLastD "")) ∈ rules.extensions)) ∧
    (∀ (root : List String) (rules : ExcludePatterns) (es : List FSEntry),
        (∀ f ∈ (analyze_code_files root rules (some es)).files,
           ∀ d ∈ f.path.dropLast, d ∉ rules.dirs) ∧
        (∀ e ∈ (analyze_code_files root rules (some es)).errors,
           ∀ d ∈ e.file.dropLast, d ∉ rules.dirs)) := by
  constructor
  · intro comps rules
    simp only [should_skip_path, parentNames, Bool.or_eq_true,
      List.any_eq_true, List.mem_append, List.mem_singleton]
    constructor
    · rintro (⟨d, hd | hd, hcon⟩ | hext)
      · exact Or.inl ⟨d, hd, by simpa using hcon⟩
      · subst hd
        exact Or.inr (Or.inl (by simpa using hcon))
      · exact Or.inr (Or.inr (by simpa using hext))
    · rintro (⟨d, hd, hmem⟩ | hanchor | hext)
      · exact Or.inl ⟨d, Or.inl hd, by simpa using hmem⟩
      · exact Or.inl ⟨"", Or.inr rfl, by simpa using hanchor⟩
      · exact Or.inr (by simpa using hext)
  · intro root rules es
    constructor
    · intro f hf d hd hdmem
      rcases mem_files_iff.mp hf with ⟨c, hc, hp⟩
      have inv := processFile_fileRec_inv hp
      have hanc := not_skip_ancestors inv.1
      have hfp : f.path.dropLast = c.rel := by
        rw [inv.2.1]
        exact List.dropLast_concat
      refine hanc d ?_ hdmem
      rw [List.dropLast_concat]
      exact List.mem_append_right root (hfp ▸ hd)
    · intro e he d hd hdmem
      rcases mem_errors_iff.mp he with ⟨c, hc, hp⟩
      have inv := processFile_errRec_inv hp
      have hanc := not_skip_ancestors inv.1
      refine hanc d ?_ hdmem
      rw [inv.2, List.dropLast_concat] at hd
      rw [List.dropLast_concat]
      exact hd

/-- Witness for C1 (amended): the filter excludes `dist/a.py` because of
its ancestor `dist`, and the record `src/a.py` of a concrete run has no
excluded ancestor. -/
theorem C1_pathFilter_amended_witness :
    should_skip_path ["dist", "a.py"] DEFAULT_EXCLUDE = true ∧
    ("src" : String) ∉ DEFAULT_EXCLUDE.dirs := by
  constructor
  · exact (C1_pathFilter_amended.1 ["dist", "a.py"] DEFAULT_EXCLUDE).mpr
      (Or.inl ⟨"dist", by decide, by decide⟩)
  · have hEval : (analyze_code_files ["r"] DEFAULT_EXCLUDE
        (some [.dir "src" [.file "a.py" ⟨.ok 3, "text/plain", .ok "x=1\n", 0⟩]])).files =
        [{ path := ["src", "a.py"], name := "a.py", size := 3,
           language := "Python", last_modified := 0, content := "x=1\n",
           statistics := { lines := 1, characters := 4 } }] := by
      simp [analyze_code_files, walkCands, walkPair]
      decide
    refine (C1_pathFilter_amended.2 ["r"] DEFAULT_EXCLUDE
      [.dir "src" [.file "a.py" ⟨.ok 3, "text/plain", .ok "x=1\n", 0⟩]]).1
      { path := ["src", "a.py"], name := "a.py", size := 3,
        language := "Python", last_modified := 0, content := "x=1\n",
        statistics := { lines := 1, characters := 4 } } ?_ "src" ?_
    · rw [hEval]
      simp
    · decide

/-- Claim C2: a candidate file that passes the path filter and whose
stat size is strictly larger than 10 MiB leaves no FileRecord and no
ErrorRecord for its path — a silent skip — while a candidate of size at
most 10 MiB proceeds past the size gate: with a text-like sniffed type
and a successful read it yields its FileRecord in `files`. -/
theorem C2_sizeGate :
    ∀ (root : List String) (rules : ExcludePatterns) (es : List FSEntry)
      (c : Cand) (sz : Nat),
      wfB es = true → c ∈ walkCands es →
      should_skip_path (root ++ c.rel ++ [c.name]) rules = false →
      c.info.statResult = .ok sz →
      (sz > 10 * 1024 * 1024 →
        (∀ f ∈ (analyze_code_files root rules (some es)).files,
            f.path ≠ c.rel ++ [c.name]) ∧
        (∀ e ∈ (analyze_code_files root rules (some es)).errors,
            e.file ≠ root ++ c.rel ++ [c.name])) ∧
      (∀ content : String, sz ≤ 10 * 1024 * 1024 →
        isTextLike c.info.mime = true → c.info.readResult = .ok content →
        ({ path := c.rel ++ [c.name], name := c.name, size := sz,
           language := detect_language c.name content,
           last_modified := c.info.mtime, content := content,
           statistics := { lines := pySplitlinesCount content,
                           characters := content.length } } : FileData) ∈
          (analyze_code_files root rules (some es)).files) := by
  intro root rules es c sz hwf hc hns hs
  constructor
  · intro hgt
    exact skipped_absent hwf hc (processFile_skip_of_size hns hs hgt)
  · intro content hle hm hr
    exact mem_files_iff.mpr ⟨c, hc, processFile_eq_rec hns hs hle hm hr⟩

/-- Witness for C2: in a run over a 10 MiB + 1 byte text file `big.txt`
and a file `ok.py` of exactly 10 MiB, the boundary file's record is
present and its path differs from the oversized file's path, which the
oversized-file clause forces for every record. -/
theorem C2_sizeGate_witness :
    ({ path := ["ok.py"], name := "ok.py", size := 10485760,
       language := "Python", last_modified := 0, content := "ok",
       statistics := { lines := 1, characters := 2 } } : FileData) ∈
      (analyze_code_files ["r"] DEFAULT_EXCLUDE
        (some [.file "big.txt" ⟨.ok 10485761, "text/plain", .ok "x", 0⟩,
               .file "ok.py" ⟨.ok 10485760, "text/plain", .ok "ok", 0⟩])).files ∧
    ({ path := ["ok.py"], name := "ok.py", size := 10485760,
       language := "Python", last_modified := 0, content := "ok",
       statistics := { lines := 1, characters := 2 } } : FileData).path ≠
      ([] : List String) ++ ["big.txt"] := by
  have hwf : wfB [.file "big.txt" ⟨.ok 10485761, "text/plain", .ok "x", 0⟩,
      .file "ok.py" ⟨.ok 10485760, "text/plain", .ok "ok", 0⟩] = true := by
    simp [wfB, namesOf, entryName]
  have hcands : walkCands [.file "big.txt" ⟨.ok 10485761, "text/plain", .ok "x", 0⟩,
      .file "ok.py" ⟨.ok 10485760, "text/plain", .ok "ok", 0⟩] =
      [⟨[], "big.txt", ⟨.ok 10485761, "text/plain", .ok "x", 0⟩⟩,
       ⟨[], "ok.py", ⟨.ok 10485760, "text/plain", .ok "ok", 0⟩⟩] := by
    simp [walkCands, walkPair]
  have hcbig : (⟨[], "big.txt", ⟨.ok 10485761, "text/plain", .ok "x", 0⟩⟩ : Cand) ∈
      walkCands [.file "big.txt" ⟨.ok 10485761, "text/plain", .ok "x", 0⟩,
        .file "ok.py" ⟨.ok 10485760, "text/plain", .ok "ok", 0⟩] := by
    rw [hcands]
    simp
  have hcok : (⟨[], "ok.py", ⟨.ok 10485760, "text/plain", .ok "ok", 0⟩⟩ : Cand) ∈
      walkCands [.file "big.txt" ⟨.ok 10485761, "text/plain", .ok "x", 0⟩,
        .file "ok.py" ⟨.ok 10485760, "text/plain", .ok "ok", 0⟩] := by
    rw [hcands]
    simp
  have hok := (C2_sizeGate ["r"] DEFAULT_EXCLUDE _ _ 10485760 hwf hcok
    (by decide) rfl).2 "ok" (by decide) (by decide) rfl
  refine ⟨hok, ?_⟩
  exact ((C2_sizeGate ["r"] DEFAULT_EXCLUDE _ _ 10485761 hwf hcbig
    (by decide) rfl).1 (by decide)).1 _ hok

/-- Claim C3: the sniffed MIME type is treated as text-like iff it
starts with "text/" or is exactly `application/javascript`,
`application/json`, or `application/xml`; a candidate that passed the
filter and the size gate but sniffs outside this allowlist leaves no
FileRecord and no ErrorRecord for its path (silent skip). -/
theorem C3_textAllowlist :
    (∀ mime : String, isTextLike mime = true ↔
       (strStartsWith mime "text/" = true ∨ mime = "application/javascript" ∨
        mime = "application/json" ∨ mime = "application/xml")) ∧
    (∀ (root : List String) (rules : ExcludePatterns) (es : List FSEntry)
       (c : Cand) (sz : Nat),
       wfB es = true → c ∈ walkCands es →
       should_skip_path (root ++ c.rel ++ [c.name]) rules = false →
       c.info.statResult = .ok sz → sz ≤ 10 * 1024 * 1024 →
       isTextLike c.info.mime = false →
       (∀ f ∈ (analyze_code_files root rules (some es)).files,
           f.path ≠ c.rel ++ [c.name]) ∧
       (∀ e ∈ (analyze_code_files root rules (some es)).errors,
           e.file ≠ root ++ c.rel ++ [c.name])) := by
  constructor
  · intro mime
    simp [isTextLike, Bool.or_eq_true, or_assoc]
  · intro root rules es c sz hwf hc hns hs hle hm
    exact skipped_absent hwf hc (processFile_skip_of_mime hns hs hle hm)

/-- Witness for C3: `application/json` is in the allowlist, and in a run
containing a PNG image next to a Python file, every produced record's
path differs from the image's path. -/
theorem C3_textAllowlist_witness :
    isTextLike "application/json" = true ∧
    ({ path := ["ok.py"], name := "ok.py", size := 3,
       language := "Python", last_modified := 0, content := "x=1",
       statistics := { lines := 1, characters := 3 } } : FileData).path ≠
      ([] : List String) ++ ["img.bin"] := by
  constructor
  · exact (C3_textAllowlist.1 "application/json").mpr (Or.inr (Or.inr (Or.inl rfl)))
  · have hwf : wfB [.file "img.bin" ⟨.ok 9, "image/png", .ok "", 0⟩,
        .file "ok.py" ⟨.ok 3, "text/plain", .ok "x=1", 0⟩] = true := by
      simp [wfB, namesOf, entryName]
    have hcands : walkCands [.file "img.bin" ⟨.ok 9, "image/png", .ok "", 0⟩,
        .file "ok.py" ⟨.ok 3, "text/plain", .ok "x=1", 0⟩] =
        [⟨[], "img.bin", ⟨.ok 9, "image/png", .ok "", 0⟩⟩,
         ⟨[], "ok.py", ⟨.ok 3, "text/plain", .ok "x=1", 0⟩⟩] := by
      simp [walkCands, walkPair]
    have hcimg : (⟨[], "img.bin", ⟨.ok 9, "image/png", .ok "", 0⟩⟩ : Cand) ∈
        walkCands [.file "img.bin" ⟨.ok 9, "image/png", .ok "", 0⟩,
          .file "ok.py" ⟨.ok 3, "text/plain", .ok "x=1", 0⟩] := by
      rw [hcands]
      simp
    have hmemok : (⟨["ok.py"], "ok.py", 3, "Python", 0, "x=1", ⟨1, 3⟩⟩ : FileData) ∈
        (analyze_code_files ["r"] DEFAULT_EXCLUDE
          (some [.file "img.bin" ⟨.ok 9, "image/png", .ok "", 0⟩,
                 .file "ok.py" ⟨.ok 3, "text/plain", .ok "x=1", 0⟩])).files := by
      apply mem_files_iff.mpr
      refine ⟨⟨[], "ok.py", ⟨.ok 3, "text/plain", .ok "x=1", 0⟩⟩, ?_, ?_⟩
      · rw [hcands]
        simp
      · decide
    exact ((C3_textAllowlist.2 ["r"] DEFAULT_EXCLUDE _ _ 9 hwf hcimg
      (by decide) rfl (by decide) (by decide)).1) _ hmemok

/-- Claim C4: a candidate that passed the filter and the size and
text-type gates but whose read or UTF-8 decode raises (message `m`,
non-empty for the exception classes that arise here) is recorded as an
ErrorRecord carrying its full path and that message, yields no entry in
`files`, and the walk is not aborted: every other candidate's successful
record still appears in `files`. -/
theorem C4_readError :
    ∀ (root : List String) (rules : ExcludePatterns) (es : List FSEntry)
      (c : Cand) (sz : Nat) (m : String),
      wfB es = true → c ∈ walkCands es →
      should_skip_path (root ++ c.rel ++ [c.name]) rules = false →
      c.info.statResult = .ok sz → sz ≤ 10 * 1024 * 1024 →
      isTextLike c.info.mime = true → c.info.readResult = .error m → m ≠ "" →
      ((⟨root ++ c.rel ++ [c.name], m⟩ : ErrorData) ∈
          (analyze_code_files root rules (some es)).errors ∧
       (⟨root ++ c.rel ++ [c.name], m⟩ : ErrorData).message ≠ "") ∧
      (∀ f ∈ (analyze_code_files root rules (some es)).files,
          f.path ≠ c.rel ++ [c.name]) ∧
      (∀ (c' : Cand) (f' : FileData), c' ∈ walkCands es →
          processFile root rules c' = .fileRec f' →
          f' ∈ (analyze_code_files root rules (some es)).files) := by
  intro root rules es c sz m hwf hc hns hs hle hm hr hm0
  have herr := processFile_eq_err_read hns hs hle hm hr
  refine ⟨⟨mem_errors_iff.mpr ⟨c, hc, herr⟩, hm0⟩, ?_, ?_⟩
  · apply not_fileRec_absent hwf hc
    intro f' hf'
    rw [herr] at hf'
    exact Outcome.noConfusion hf'
  · intro c' f' hc' hp'
    exact mem_files_iff.mpr ⟨c', hc', hp'⟩

/-- Witness for C4: a run over `bad.txt`, sniffed text/plain but whose
decode raises, and a healthy `good.py`: the error record with the raised
message is present, and the sibling's record is still produced. -/
theorem C4_readError_witness :
    (⟨["r", "bad.txt"], "invalid start byte"⟩ : ErrorData) ∈
      (analyze_code_files ["r"] DEFAULT_EXCLUDE
        (some [.file "bad.txt" ⟨.ok 5, "text/plain", .error "invalid start byte", 0⟩,
               .file "good.py" ⟨.ok 4, "text/plain", .ok "y=2\n", 0⟩])).errors ∧
    (⟨["good.py"], "good.py", 4, "Python", 0, "y=2\n", ⟨1, 4⟩⟩ : FileData) ∈
      (analyze_code_files ["r"] DEFAULT_EXCLUDE
        (some [.file "bad.txt" ⟨.ok 5, "text/plain", .error "invalid start byte", 0⟩,
               .file "good.py" ⟨.ok 4, "text/plain", .ok "y=2\n", 0⟩])).files := by
  have hwf : wfB [.file "bad.txt" ⟨.ok 5, "text/plain", .error "invalid start byte", 0⟩,
      .file "good.py" ⟨.ok 4, "text/plain", .ok "y=2\n", 0⟩] = true := by
    simp [wfB, namesOf, entryName]
  have hcands : walkCands
      [.file "bad.txt" ⟨.ok 5, "text/plain", .error "invalid start byte", 0⟩,
       .file "good.py" ⟨.ok 4, "text/plain", .ok "y=2\n", 0⟩] =
      [⟨[], "bad.txt", ⟨.ok 5, "text/plain", .error "invalid start byte", 0⟩⟩,
       ⟨[], "good.py", ⟨.ok 4, "text/plain", .ok "y=2\n", 0⟩⟩] := by
    simp [walkCands, walkPair]
  have hcbad : (⟨[], "bad.txt", ⟨.ok 5, "text/plain", .error "invalid start byte", 0⟩⟩ : Cand) ∈
      walkCands [.file "bad.txt" ⟨.ok 5, "text/plain", .error "invalid start byte", 0⟩,
        .file "good.py" ⟨.ok 4, "text/plain", .ok "y=2\n", 0⟩] := by
    rw [hcands]
    simp
  have hcgood : (⟨[], "good.py", ⟨.ok 4, "text/plain", .ok "y=2\n", 0⟩⟩ : Cand) ∈
      walkCands [.file "bad.txt" ⟨.ok 5, "text/plain", .error "invalid start byte", 0⟩,
        .file "good.py" ⟨.ok 4, "text/plain", .ok "y=2\n", 0⟩] := by
    rw [hcands]
    simp
  have h := C4_readError ["r"] DEFAULT_EXCLUDE _ _ 5 "invalid start byte" hwf hcbad
    (by decide) rfl (by decide) (by decide) rfl (by decide)
  exact ⟨h.1.1, h.2.2 _ _ hcgood (by decide)⟩

/-- Claim C9: over a well-formed snapshot (distinct entry names within
each directory, as on a real filesystem), no path occurs twice in
`files`, no path occurs twice in `errors`, and no candidate file is
recorded in both: the relative path `rel ++ [n]` appearing in `files`
and the full path `root ++ rel ++ [n]` appearing in `errors` cannot both
happen — each candidate passing the gates yields exactly one outcome. -/
theorem C9_uniqueOutcome :
    ∀ (root : List String) (rules : ExcludePatterns) (es : List FSEntry),
      wfB es = true →
      (((analyze_code_files root rules (some es)).files.map
          (fun f => f.path)).Nodup ∧
       ((analyze_code_files root rules (some es)).errors.map
          (fun e => e.file)).Nodup) ∧
      (∀ (rel : List String) (n : String),
        ¬((rel ++ [n]) ∈ (analyze_code_files root rules (some es)).files.map
              (fun f => f.path) ∧
          (root ++ rel ++ [n]) ∈ (analyze_code_files root rules (some es)).errors.map
              (fun e => e.file))) := by
  intro root rules es hwf
  constructor
  · constructor
    · have hfiles : (analyze_code_files root rules (some es)).files.map
          (fun f => f.path) =
          (walkCands es).filterMap
            (fun c => (outFile (processFile root rules c)).map (fun f => f.path)) := by
        simp [analyze_code_files, List.map_filterMap]
      rw [hfiles]
      refine nodup_filterMap_keyed _ candKey _ (fun k => k.1 ++ [k.2]) ?_ ?_
        (walkCands_keys_nodup hwf)
      · intro a b hab
        rcases Option.map_eq_some'.mp hab with ⟨f, hf, hfb⟩
        have inv := processFile_fileRec_inv (outFile_eq_some.mp hf)
        rw [← hfb, inv.2.1]
        rfl
      · intro k1 k2 hk
        obtain ⟨a1, b1⟩ := k1
        obtain ⟨a2, b2⟩ := k2
        have h2 := concat_inj hk
        simp only [Prod.mk.injEq]
        exact ⟨h2.1, h2.2⟩
    · have herrs : (analyze_code_files root rules (some es)).errors.map
          (fun e => e.file) =
          (walkCands es).filterMap
            (fun c => (outError (processFile root rules c)).map (fun e => e.file)) := by
        simp [analyze_code_files, List.map_filterMap]
      rw [herrs]
      refine nodup_filterMap_keyed _ candKey _ (fun k => root ++ k.1 ++ [k.2]) ?_ ?_
        (walkCands_keys_nodup hwf)
      · intro a b hab
        rcases Option.map_eq_some'.mp hab with ⟨e, he, heb⟩
        have inv := processFile_errRec_inv (outError_eq_some.mp he)
        rw [← heb, inv.2]
        rfl
      · intro k1 k2 hk
        obtain ⟨a1, b1⟩ := k1
        obtain ⟨a2, b2⟩ := k2
        have h2 := root_concat_inj hk
        simp only [Prod.mk.injEq]
        exact ⟨h2.1, h2.2⟩
  · rintro rel n ⟨hmf, hme⟩
    rcases List.mem_map.mp hmf with ⟨f, hf, hfp⟩
    rcases List.mem_map.mp hme with ⟨e, he, hep⟩
    rcases mem_files_iff.mp hf with ⟨c1, hc1, hp1⟩
    rcases mem_errors_iff.mp he with ⟨c2, hc2, hp2⟩
    have inv1 := processFile_fileRec_inv hp1
    have inv2 := processFile_errRec_inv hp2
    have hk1 : candKey c1 = (rel, n) := by
      have h1 : c1.rel ++ [c1.name] = rel ++ [n] := by rw [← inv1.2.1, hfp]
      have h2 := concat_inj h1
      simp [candKey, h2.1, h2.2]
    have hk2 : candKey c2 = (rel, n) := by
      have h1 : root ++ c2.rel ++ [c2.name] = root ++ rel ++ [n] := by
        rw [← inv2.2, hep]
      have h2 := root_concat_inj h1
      simp [candKey, h2.1, h2.2]
    have hceq := walk_key_inj hwf hc1 hc2 (hk1.trans hk2.symm)
    rw [hceq, hp2] at hp1
    exact Outcome.noConfusion hp1

/-- Witness for C9 on a concrete run holding one successful record and
one error record. -/
theorem C9_uniqueOutcome_witness :
    ((analyze_code_files ["r"] DEFAULT_EXCLUDE
        (some [.file "ok.py" ⟨.ok 3, "text/plain", .ok "x=1", 0⟩,
               .file "bad.txt" ⟨.ok 5, "text/plain", .error "boom", 0⟩])).files.map
        (fun f => f.path)).Nodup ∧
    ¬((([] : List String) ++ ["ok.py"]) ∈
        (analyze_code_files ["r"] DEFAULT_EXCLUDE
          (some [.file "ok.py" ⟨.ok 3, "text/plain", .ok "x=1", 0⟩,
                 .file "bad.txt" ⟨.ok 5, "text/plain", .error "boom", 0⟩])).files.map
          (fun f => f.path) ∧
      (["r"] ++ ([] : List String) ++ ["ok.py"]) ∈
        (analyze_code_files ["r"] DEFAULT_EXCLUDE
          (some [.file "ok.py" ⟨.ok 3, "text/plain", .ok "x=1", 0⟩,
                 .file "bad.txt" ⟨.ok 5, "text/plain", .error "boom", 0⟩])).errors.map
          (fun e => e.file)) := by
  have hwf : wfB [.file "ok.py" ⟨.ok 3, "text/plain", .ok "x=1", 0⟩,
      .file "bad.txt" ⟨.ok 5, "text/plain", .error "boom", 0⟩] = true := by
    simp [wfB, namesOf, entryName]
  have h := C9_uniqueOutcome ["r"] DEFAULT_EXCLUDE _ hwf
  exact ⟨h.1.1, h.2 [] "ok.py"⟩
